import Mathlib

/-!
Verification of the async-zip streaming archive writer.

The development shallowly embeds the two source files of the repository,
src/lib.rs (the streaming orchestrator Zipper) and src/zip.rs (the record
encoders and the directory accumulator).  Byte sequences are modelled as
lists of natural numbers below 256, machine integers as natural numbers
with explicit reductions modulo 2 to the width where the code truncates,
and fallible Rust functions as Except-valued Lean functions.  The modules
date.rs and error.rs of the repository are not part of the given sources;
the Timestamp and Error types below are modelled from the specification,
which treats the DOS timestamp converter as an external collaborator.
-/

namespace AsyncZip

/-- Modelled from the spec: the error type of the missing module error.rs.
The variants FileNameTooBig, FileTooBig and ArchiveTooBig are the ones
raised in zip.rs; InvalidDate models the failure of the DOS date
conversion when the date predates the format epoch; IoError models a host
input or output failure while opening, reading, or inspecting a file. -/
inductive Error where
  | FileNameTooBig : Error
  | FileTooBig : Nat → Error
  | ArchiveTooBig : Error
  | InvalidDate : Error
  | IoError : Error
deriving DecidableEq

/-- Modelled from the spec: the DOS timestamp of the missing module date.rs.
The spec describes a converter from a host modification time to two 16-bit
DOS fields, which can fail when the date predates the format epoch.  A
timestamp is modelled abstractly by the results of its two conversions:
dos_timepart always yields a 16-bit value, dos_datepart yields a 16-bit
value or fails. -/
structure Timestamp where
  dos_timepart : Nat
  dos_datepart : Except Error Nat

/-- Little-endian serialization of a 16-bit value (put_u16_le). -/
def u16le (v : Nat) : List Nat :=
  [v % 256, v / 256 % 256]

/-- Little-endian serialization of a 32-bit value (put_u32_le). -/
def u32le (v : Nat) : List Nat :=
  [v % 256, v / 256 % 256, v / 65536 % 256, v / 16777216 % 256]

def LOCAL_FILE_HEADER_SIGNATURE : Nat := 0x04034b50

def CENTRAL_DIRECTORY_HEADER_SIGNATURE : Nat := 0x02014b50

def CENTRAL_DIRECTORY_END_SIGNATURE : Nat := 0x06054b50

def DATA_DESCRIPTOR_SIGNATURE : Nat := 0x08074b50

def MIN_VERSION : Nat := 20

def FLAGS : Nat := 0b0000100000001000

def COMPRESS_STORE : Nat := 0

/-- std::u16::MAX as a natural number. -/
def U16_MAX : Nat := 65535

/-- std::u32::MAX as a natural number. -/
def U32_MAX : Nat := 4294967295

/-- FileHeader from zip.rs: the file name is kept as its encoded byte
sequence, so List.length is the byte length the Rust code tests. -/
structure FileHeader where
  file_name : List Nat
  modified : Timestamp

/-- FileHeader::to_bytes from zip.rs.  The DOS date conversion is evaluated
(and its failure propagated) before the file-name length check, exactly as
in the source. -/
def FileHeader.to_bytes (h : FileHeader) : Except Error (List Nat) :=
  match h.modified.dos_datepart with
  | .error e => .error e
  | .ok d =>
    if h.file_name.length > U16_MAX then
      .error .FileNameTooBig
    else
      .ok (u32le LOCAL_FILE_HEADER_SIGNATURE ++
        u16le MIN_VERSION ++
        u16le FLAGS ++
        u16le COMPRESS_STORE ++
        u16le h.modified.dos_timepart ++
        u16le d ++
        u32le 0 ++
        u32le 0 ++
        u32le 0 ++
        u16le h.file_name.length ++
        u16le 0 ++
        h.file_name)

/-- Descriptor from zip.rs: size is a u64, crc a u32. -/
structure Descriptor where
  size : Nat
  crc : Nat

/-- Descriptor::new from zip.rs. -/
def Descriptor.new (size : Nat) (crc : Nat) : Descriptor :=
  ⟨size, crc⟩

/-- Descriptor::to_bytes from zip.rs. -/
def Descriptor.to_bytes (d : Descriptor) : Except Error (List Nat) :=
  if d.size > U32_MAX then
    .error (.FileTooBig d.size)
  else
    .ok (u32le DATA_DESCRIPTOR_SIGNATURE ++
      u32le d.crc ++
      u32le d.size ++
      u32le d.size)

structure DirectoryEntry where
  header : FileHeader
  desc : Descriptor
  offset : Nat

/-- DirectoryEntry::add_to_bytes from zip.rs, modelled as returning the
bytes the call appends to the buffer.  In the source a failing call leaves
a partial prefix in the buffer, but every caller discards the buffer on
failure, so only the error is observable; the checks occur in source
order: DOS date conversion, size, name length, offset. -/
def DirectoryEntry.add_to_bytes (e : DirectoryEntry) : Except Error (List Nat) :=
  match e.header.modified.dos_datepart with
  | .error er => .error er
  | .ok d =>
    if e.desc.size > U32_MAX then
      .error (.FileTooBig e.desc.size)
    else if e.header.file_name.length > U16_MAX then
      .error .FileNameTooBig
    else if e.offset > U32_MAX then
      .error .ArchiveTooBig
    else
      .ok (u32le CENTRAL_DIRECTORY_HEADER_SIGNATURE ++
        u16le MIN_VERSION ++
        u16le MIN_VERSION ++
        u16le FLAGS ++
        u16le COMPRESS_STORE ++
        u16le e.header.modified.dos_timepart ++
        u16le d ++
        u32le e.desc.crc ++
        u32le e.desc.size ++
        u32le e.desc.size ++
        u16le e.header.file_name.length ++
        u16le 0 ++
        u16le 0 ++
        u16le 0 ++
        u16le 0 ++
        u32le 0 ++
        u32le e.offset ++
        e.header.file_name)

/-- DirectoryEnd from zip.rs: number_of_files is a u16, dir_size a u32,
dir_offset a u64. -/
structure DirectoryEnd where
  number_of_files : Nat
  dir_size : Nat
  dir_offset : Nat

/-- DirectoryEnd::add_to_bytes from zip.rs, as the appended bytes. -/
def DirectoryEnd.add_to_bytes (e : DirectoryEnd) : Except Error (List Nat) :=
  if e.dir_offset > U32_MAX then
    .error .ArchiveTooBig
  else
    .ok (u32le CENTRAL_DIRECTORY_END_SIGNATURE ++
      u16le 0 ++
      u16le 0 ++
      u16le e.number_of_files ++
      u16le e.number_of_files ++
      u32le e.dir_size ++
      u32le e.dir_offset ++
      u16le 0)

/-- Directory from zip.rs. -/
structure Directory where
  entries : List DirectoryEntry
  offset : Option Nat

/-- Directory::new from zip.rs. -/
def Directory.new : Directory :=
  ⟨[], none⟩

/-- Directory::add_entry from zip.rs: pushes one entry at the end. -/
def Directory.add_entry (dir : Directory) (header : FileHeader)
    (desc : Descriptor) (offset : Nat) : Directory :=
  ⟨dir.entries ++ [⟨header, desc, offset⟩], dir.offset⟩

/-- The loop of Directory::to_bytes that serializes the accumulated
entries in order into the buffer, stopping at the first failing entry. -/
def entriesBytes : List DirectoryEntry → Except Error (List Nat)
  | [] => .ok []
  | e :: es =>
    match e.add_to_bytes with
    | .error er => .error er
    | .ok b =>
      match entriesBytes es with
      | .error er => .error er
      | .ok bs => .ok (b ++ bs)

/-- Outcome of a computation that can also panic (the expect call in
Directory::to_bytes). -/
inductive ZOutcome (α : Type) where
  | ok : α → ZOutcome α
  | err : Error → ZOutcome α
  | panic : ZOutcome α
deriving DecidableEq

/-- Directory::to_bytes from zip.rs: serializes all entries, then reads
the offset with expect (panicking when it was never set), checks it
against the 32-bit maximum, and appends the end record built with the
truncating casts number_of_files as u16 and dir_size as u32. -/
def Directory.to_bytes (dir : Directory) : ZOutcome (List Nat) :=
  match entriesBytes dir.entries with
  | .error e => .err e
  | .ok eb =>
    match dir.offset with
    | none => .panic
    | some off =>
      if off > U32_MAX then
        .err .ArchiveTooBig
      else
        match DirectoryEnd.add_to_bytes
            ⟨dir.entries.length % 65536, eb.length % 4294967296, off⟩ with
        | .error e => .err e
        | .ok endb => .ok (eb ++ endb)

/-- Directory::finalize from zip.rs: sets the offset, then serializes. -/
def Directory.finalize (dir : Directory) (offset : Nat) : ZOutcome (List Nat) :=
  Directory.to_bytes ⟨dir.entries, some offset⟩

def CRC32_POLY : Nat := 0xEDB88320

/-- One bit round of the crc-32 remainder computation. -/
def crc32Round (c : Nat) : Nat :=
  if c % 2 = 1 then (c / 2) ^^^ CRC32_POLY else c / 2

/-- Fold one input byte into the crc-32 state (crc32fast Hasher::update,
one byte). -/
def crc32UpdateByte (c : Nat) (b : Nat) : Nat :=
  crc32Round (crc32Round (crc32Round (crc32Round (crc32Round (crc32Round
    (crc32Round (crc32Round (c ^^^ b % 256))))))))

/-- Fold a byte sequence into the crc-32 state (Hasher::update). -/
def crc32Update (c : Nat) (data : List Nat) : Nat :=
  data.foldl crc32UpdateByte c

/-- Initial crc-32 state (crc32fast Hasher::new). -/
def CRC32_INIT : Nat := 0xFFFFFFFF

/-- Final xor of the crc-32 computation (Hasher::finalize). -/
def crc32Finalize (c : Nat) : Nat :=
  c ^^^ 0xFFFFFFFF

/-- The crc-32 checksum of a byte sequence. -/
def crc32 (data : List Nat) : Nat :=
  crc32Finalize (crc32Update CRC32_INIT data)

/-- One input file as the orchestrator observes it through the host file
layer: the result of opening it and fetching its metadata and modification
time (an input-output failure aborts the file), the encoded bytes of its
path (FileHeader::new applies a lossy conversion of the path to text; the
name field holds the resulting bytes), the DOS timestamp of its
modification time, and the successive results of the read_buf calls.  A
read result of ok with an empty chunk means end of file. -/
structure InputFile where
  openResult : Except Error Unit
  name : List Nat
  modified : Timestamp
  reads : List (Except Error (List Nat))

/-- The content read loop of Zipper::main_loop: reads chunks until a read
fails or yields zero bytes, collecting the emitted chunks while advancing
the cursor and the crc-32 state.  Returns the chunks emitted before the
stop together with the final cursor and crc state, or the propagated read
error. -/
def readLoop : List (Except Error (List Nat)) → Nat → Nat →
    List (List Nat) × Except Error (Nat × Nat)
  | [], pos, c => ([], .ok (pos, c))
  | .error e :: _, _, _ => ([], .error e)
  | .ok chunk :: rest, pos, c =>
    if chunk.length = 0 then
      ([], .ok (pos, c))
    else
      let r := readLoop rest (pos + chunk.length) (crc32Update c chunk)
      (chunk :: r.1, r.2)

/-- The body of the while loop of Zipper::main_loop for one input file:
open the file, build and emit the header, stream the content while
hashing, build and emit the descriptor, and append the directory entry.
Returns the chunks sent for this file together with the new cursor and
directory, or the chunks sent before the failure and the error. -/
def processFile (file : InputFile) (pos : Nat) (dir : Directory) :
    List (List Nat) × Except Error (Nat × Directory) :=
  match file.openResult with
  | .error e => ([], .error e)
  | .ok _ =>
    let file_header : FileHeader := ⟨file.name, file.modified⟩
    match file_header.to_bytes with
    | .error e => ([], .error e)
    | .ok file_header_bytes =>
      let file_header_offset := pos
      let pos := pos + file_header_bytes.length
      let file_content_offset := pos
      match readLoop file.reads pos CRC32_INIT with
      | (chunks, .error e) => (file_header_bytes :: chunks, .error e)
      | (chunks, .ok (pos, hasher)) =>
        let file_size := pos - file_content_offset
        let crc := crc32Finalize hasher
        let desc := Descriptor.new file_size crc
        match desc.to_bytes with
        | .error e => (file_header_bytes :: chunks, .error e)
        | .ok desc_bytes =>
          let pos := pos + desc_bytes.length
          (file_header_bytes :: (chunks ++ [desc_bytes]),
            .ok (pos, dir.add_entry file_header desc file_header_offset))

/-- The while loop of Zipper::main_loop over the remaining input files,
threading the cursor and the directory accumulator and collecting the
chunks sent. -/
def processFiles : List InputFile → Nat → Directory →
    List (List Nat) × Except Error (Nat × Directory)
  | [], pos, dir => ([], .ok (pos, dir))
  | f :: fs, pos, dir =>
    match processFile f pos dir with
    | (cs, .error e) => (cs, .error e)
    | (cs, .ok (pos2, dir2)) =>
      let r := processFiles fs pos2 dir2
      (cs ++ r.1, r.2)

/-- Zipper::main_loop from lib.rs: processes every input file, then
finalizes the directory at the current cursor and emits its bytes as the
last chunk.  The result pairs the chunks sent over the channel with the
outcome (the panic case covers the expect call inside directory
serialization; the send expect for a vanished receiver is outside this
model, the consumer being assumed present). -/
def main_loop (files : List InputFile) : List (List Nat) × ZOutcome Unit :=
  match processFiles files 0 Directory.new with
  | (cs, .error e) => (cs, .err e)
  | (cs, .ok (pos, dir)) =>
    match dir.finalize pos with
    | .ok directory_bytes => (cs ++ [directory_bytes], .ok ())
    | .err e => (cs, .err e)
    | .panic => (cs, .panic)

/-- One item of the output stream as the consumer receives it. -/
inductive StreamItem where
  | chunk : List Nat → StreamItem
  | failure : Error → StreamItem
deriving DecidableEq

/-- Zipper::zipped_stream from lib.rs, viewed as the sequence of items
the consumer drains from the channel: every chunk main_loop sent, in
order, followed by the error as the terminal item when main_loop failed
(a panicking task drops the sender without a terminal error item). -/
def zipped_stream (files : List InputFile) : List StreamItem :=
  let r := main_loop files
  r.1.map .chunk ++
    (match r.2 with
     | .ok _ => []
     | .err e => [.failure e]
     | .panic => [])

/-- The chunks the read loop emits: the maximal prefix of successful
non-empty reads. -/
def takeChunks : List (Except Error (List Nat)) → List (List Nat)
  | [] => []
  | .error _ :: _ => []
  | .ok chunk :: rest =>
    if chunk.length = 0 then [] else chunk :: takeChunks rest

/-- The read error the read loop stops at, when there is one before end
of file. -/
def readErr : List (Except Error (List Nat)) → Option Error
  | [] => none
  | .error e :: _ => some e
  | .ok chunk :: rest =>
    if chunk.length = 0 then none else readErr rest

/-- Total byte length of a sequence of chunks. -/
def sumLen (cs : List (List Nat)) : Nat :=
  (cs.map List.length).sum

/-- The descriptor main_loop builds for a file: its size is the total
byte length of the content chunks, its crc the crc-32 of their
concatenation. -/
def fileDesc (f : InputFile) : Descriptor :=
  ⟨sumLen (takeChunks f.reads), crc32 (takeChunks f.reads).flatten⟩

/-- The chunks main_loop sends for one file, including the ones sent
before a failure. -/
def fileChunks (f : InputFile) : List (List Nat) :=
  match f.openResult with
  | .error _ => []
  | .ok _ =>
    match FileHeader.to_bytes ⟨f.name, f.modified⟩ with
    | .error _ => []
    | .ok hb =>
      match readErr f.reads with
      | some _ => hb :: takeChunks f.reads
      | none =>
        match Descriptor.to_bytes (fileDesc f) with
        | .error _ => hb :: takeChunks f.reads
        | .ok db => hb :: (takeChunks f.reads ++ [db])

/-- The outcome of processing one file: the error it stops at, or the new
cursor and directory. -/
def fileResult (f : InputFile) (pos : Nat) (dir : Directory) :
    Except Error (Nat × Directory) :=
  match f.openResult with
  | .error e => .error e
  | .ok _ =>
    match FileHeader.to_bytes ⟨f.name, f.modified⟩ with
    | .error e => .error e
    | .ok hb =>
      match readErr f.reads with
      | some e => .error e
      | none =>
        match Descriptor.to_bytes (fileDesc f) with
        | .error e => .error e
        | .ok db =>
          .ok (pos + hb.length + sumLen (takeChunks f.reads) + db.length,
            dir.add_entry ⟨f.name, f.modified⟩ (fileDesc f) pos)


theorem u16le_length (v : Nat) : (u16le v).length = 2 := rfl

theorem u32le_length (v : Nat) : (u32le v).length = 4 := rfl

/-- C4: for every FileHeader whose name byte length is at most 65535 (and
whose DOS date conversion succeeds, the timestamp converter being an
external collaborator), to_bytes returns exactly 30 + name-length bytes:
the local-header signature, the minimum version, the flag constant, the
stored compression method, DOS time, DOS date, crc-32 written as 0,
compressed and uncompressed sizes 0, the name length, extra-field length
0, all little-endian, then the name bytes; the flag constant has the
sizes-unknown bit (bit 3) set; and to_bytes fails with the name-too-long
error when the name byte length exceeds 65535. -/
theorem fileHeader_to_bytes_spec (h : FileHeader) (d : Nat)
    (hd : h.modified.dos_datepart = .ok d) :
    (h.file_name.length ≤ 65535 →
      FileHeader.to_bytes h = .ok (u32le LOCAL_FILE_HEADER_SIGNATURE ++
        u16le MIN_VERSION ++ u16le FLAGS ++ u16le COMPRESS_STORE ++
        u16le h.modified.dos_timepart ++ u16le d ++
        u32le 0 ++ u32le 0 ++ u32le 0 ++
        u16le h.file_name.length ++ u16le 0 ++ h.file_name) ∧
      ∀ b, FileHeader.to_bytes h = .ok b → b.length = 30 + h.file_name.length) ∧
    Nat.testBit FLAGS 3 = true ∧
    (h.file_name.length > 65535 →
      FileHeader.to_bytes h = .error .FileNameTooBig) := by
  constructor
  · intro hle
    have hnot : ¬ h.file_name.length > U16_MAX := by
      simp [U16_MAX]; omega
    constructor
    · simp [FileHeader.to_bytes, hd, hnot]
    · intro b hb
      simp [FileHeader.to_bytes, hd, hnot] at hb
      subst hb
      simp [u16le, u32le]
      omega
  · constructor
    · decide
    · intro hgt
      have hyes : h.file_name.length > U16_MAX := by
        simp [U16_MAX]; omega
      simp [FileHeader.to_bytes, hd, hyes]

/-- Witness for C4 at a concrete two-byte file name. -/
theorem fileHeader_to_bytes_spec_witness :
    FileHeader.to_bytes ⟨[97, 98], ⟨3, .ok 5⟩⟩ =
      .ok (u32le LOCAL_FILE_HEADER_SIGNATURE ++
        u16le MIN_VERSION ++ u16le FLAGS ++ u16le COMPRESS_STORE ++
        u16le 3 ++ u16le 5 ++ u32le 0 ++ u32le 0 ++ u32le 0 ++
        u16le 2 ++ u16le 0 ++ [97, 98]) :=
  ((fileHeader_to_bytes_spec ⟨[97, 98], ⟨3, .ok 5⟩⟩ 5 rfl).1 (by decide)).1

/-- C5: Descriptor to_bytes yields exactly the 16 bytes signature, crc,
compressed size, uncompressed size (both written from the one stored
size), little-endian, whenever the size is at most 4294967295, and it
fails, with the file-too-big error carrying the size, exactly when the
size exceeds the 32-bit maximum. -/
theorem descriptor_to_bytes_spec (d : Descriptor) :
    (d.size ≤ 4294967295 →
      Descriptor.to_bytes d = .ok (u32le DATA_DESCRIPTOR_SIGNATURE ++
        u32le d.crc ++ u32le d.size ++ u32le d.size) ∧
      ∀ b, Descriptor.to_bytes d = .ok b → b.length = 16) ∧
    (Descriptor.to_bytes d = .error (.FileTooBig d.size) ↔
      d.size > 4294967295) := by
  constructor
  · intro hle
    have hnot : ¬ d.size > U32_MAX := by
      simp [U32_MAX]; omega
    constructor
    · simp [Descriptor.to_bytes, hnot]
    · intro b hb
      simp [Descriptor.to_bytes, hnot] at hb
      subst hb
      rfl
  · constructor
    · intro hb
      by_contra hc
      have hnot : ¬ d.size > U32_MAX := by
        simp [U32_MAX]; omega
      simp [Descriptor.to_bytes, hnot] at hb
    · intro hgt
      have hyes : d.size > U32_MAX := by
        simp [U32_MAX]; omega
      simp [Descriptor.to_bytes, hyes]

/-- Witness for C5 at a concrete descriptor of size 5 and crc 7. -/
theorem descriptor_to_bytes_spec_witness :
    Descriptor.to_bytes ⟨5, 7⟩ = .ok (u32le DATA_DESCRIPTOR_SIGNATURE ++
      u32le 7 ++ u32le 5 ++ u32le 5) :=
  ((descriptor_to_bytes_spec ⟨5, 7⟩).1 (by decide)).1

/-- DirectoryEntry from zip.rs. -/
theorem u16le_mod (v : Nat) : u16le (v % 65536) = u16le v := by
  have e0 : v % 65536 % 256 = v % 256 := Nat.mod_mod_of_dvd v (by norm_num)
  have e1 : v % 65536 / 256 % 256 = v / 256 % 256 := by
    have h : (65536 : Nat) = 256 * 256 := by norm_num
    rw [h, Nat.mod_mul_right_div_self, Nat.mod_mod_of_dvd _ dvd_rfl]
  simp [u16le, e0, e1]

theorem u32le_mod (v : Nat) : u32le (v % 4294967296) = u32le v := by
  have e0 : v % 4294967296 % 256 = v % 256 := Nat.mod_mod_of_dvd v (by norm_num)
  have e1 : v % 4294967296 / 256 % 256 = v / 256 % 256 := by
    have h : (4294967296 : Nat) = 256 * 16777216 := by norm_num
    rw [h, Nat.mod_mul_right_div_self, Nat.mod_mod_of_dvd _ (by norm_num)]
  have e2 : v % 4294967296 / 65536 % 256 = v / 65536 % 256 := by
    have h : (4294967296 : Nat) = 65536 * 65536 := by norm_num
    rw [h, Nat.mod_mul_right_div_self, Nat.mod_mod_of_dvd _ (by norm_num)]
  have e3 : v % 4294967296 / 16777216 % 256 = v / 16777216 % 256 := by
    have h : (4294967296 : Nat) = 16777216 * 256 := by norm_num
    rw [h, Nat.mod_mul_right_div_self, Nat.mod_mod_of_dvd _ dvd_rfl]
  simp [u32le, e0, e1, e2, e3]

/-- C6: serializing a central-directory entry whose DOS date conversion
succeeds yields, when the size, name length and offset are within bounds,
a fixed 46-byte prefix followed by the name bytes, mirroring the local
header metadata (version, twice, flags, method, DOS time and date) plus
the known crc and size, the local header offset, and zero extra-field
length, comment length, disk number and internal and external attributes,
all little-endian; and it fails whenever the name byte length exceeds
65535, the size exceeds 32 bits, or the offset exceeds 32 bits. -/
theorem directoryEntry_add_to_bytes_spec (e : DirectoryEntry) (d : Nat)
    (hd : e.header.modified.dos_datepart = .ok d) :
    (e.desc.size ≤ 4294967295 → e.header.file_name.length ≤ 65535 →
      e.offset ≤ 4294967295 →
      DirectoryEntry.add_to_bytes e =
        .ok (u32le CENTRAL_DIRECTORY_HEADER_SIGNATURE ++
          u16le MIN_VERSION ++ u16le MIN_VERSION ++ u16le FLAGS ++
          u16le COMPRESS_STORE ++ u16le e.header.modified.dos_timepart ++
          u16le d ++ u32le e.desc.crc ++ u32le e.desc.size ++
          u32le e.desc.size ++ u16le e.header.file_name.length ++
          u16le 0 ++ u16le 0 ++ u16le 0 ++ u16le 0 ++ u32le 0 ++
          u32le e.offset ++ e.header.file_name) ∧
      ∀ b, DirectoryEntry.add_to_bytes e = .ok b →
        b.length = 46 + e.header.file_name.length) ∧
    (e.desc.size > 4294967295 ∨ e.header.file_name.length > 65535 ∨
      e.offset > 4294967295 →
      ∃ er, DirectoryEntry.add_to_bytes e = .error er) := by
  constructor
  · intro hs hn ho
    have hs2 : ¬ e.desc.size > U32_MAX := by simp [U32_MAX]; omega
    have hn2 : ¬ e.header.file_name.length > U16_MAX := by simp [U16_MAX]; omega
    have ho2 : ¬ e.offset > U32_MAX := by simp [U32_MAX]; omega
    constructor
    · simp [DirectoryEntry.add_to_bytes, hd, hs2, hn2, ho2]
    · intro b hb
      simp [DirectoryEntry.add_to_bytes, hd, hs2, hn2, ho2] at hb
      subst hb
      simp [u16le, u32le]
      omega
  · intro hbad
    by_cases hs : e.desc.size > U32_MAX
    · exact ⟨.FileTooBig e.desc.size,
        by simp [DirectoryEntry.add_to_bytes, hd, hs]⟩
    · by_cases hn : e.header.file_name.length > U16_MAX
      · exact ⟨.FileNameTooBig,
          by simp [DirectoryEntry.add_to_bytes, hd, hs, hn]⟩
      · by_cases ho : e.offset > U32_MAX
        · exact ⟨.ArchiveTooBig,
            by simp [DirectoryEntry.add_to_bytes, hd, hs, hn, ho]⟩
        · exfalso
          simp [U32_MAX, U16_MAX] at hs hn ho
          omega

/-- Witness for C6 at a concrete entry with a one-byte name. -/
theorem directoryEntry_add_to_bytes_spec_witness :
    DirectoryEntry.add_to_bytes ⟨⟨[120], ⟨1, .ok 2⟩⟩, ⟨9, 11⟩, 13⟩ =
      .ok (u32le CENTRAL_DIRECTORY_HEADER_SIGNATURE ++
        u16le MIN_VERSION ++ u16le MIN_VERSION ++ u16le FLAGS ++
        u16le COMPRESS_STORE ++ u16le 1 ++ u16le 2 ++ u32le 11 ++
        u32le 9 ++ u32le 9 ++ u16le 1 ++ u16le 0 ++ u16le 0 ++ u16le 0 ++
        u16le 0 ++ u32le 0 ++ u32le 13 ++ [120]) :=
  ((directoryEntry_add_to_bytes_spec ⟨⟨[120], ⟨1, .ok 2⟩⟩, ⟨9, 11⟩, 13⟩ 2
    rfl).1 (by decide) (by decide) (by decide)).1

/-- C3: when the accumulated entries serialize to eb (in the order they
were added) and eb fits the 32-bit size field, finalize with a
final offset within the 32-bit bound returns eb followed by the 22-byte
end record whose count fields hold the number of entries twice, whose
directory-size field holds the exact byte length of eb (the end record
excluded), and whose directory-offset field holds the final offset; with a
final offset above the 32-bit maximum it fails with the archive-too-big
error. -/
theorem directory_finalize_spec (entries : List DirectoryEntry)
    (o : Option Nat) (off : Nat) (eb : List Nat)
    (heb : entriesBytes entries = .ok eb) (hsz : eb.length ≤ 4294967295)
    (hcount : entries.length ≤ 65535) :
    (off ≤ 4294967295 →
      Directory.finalize ⟨entries, o⟩ off =
        .ok (eb ++ (u32le CENTRAL_DIRECTORY_END_SIGNATURE ++ u16le 0 ++
          u16le 0 ++ u16le entries.length ++ u16le entries.length ++
          u32le eb.length ++ u32le off ++ u16le 0)) ∧
      (u32le CENTRAL_DIRECTORY_END_SIGNATURE ++ u16le 0 ++ u16le 0 ++
        u16le entries.length ++ u16le entries.length ++ u32le eb.length ++
        u32le off ++ u16le 0).length = 22) ∧
    (off > 4294967295 →
      Directory.finalize ⟨entries, o⟩ off = .err .ArchiveTooBig) := by
  constructor
  · intro hoff
    have hoff2 : ¬ off > U32_MAX := by simp [U32_MAX]; omega
    constructor
    · simp only [Directory.finalize, Directory.to_bytes, heb, hoff2,
        if_false, DirectoryEnd.add_to_bytes]
      simp only [u16le_mod, u32le_mod]
    · simp [u16le, u32le]
  · intro hoff
    have hoff2 : off > U32_MAX := by simp [U32_MAX]; omega
    simp [Directory.finalize, Directory.to_bytes, heb, hoff2]

/-- Witness for C3 at an empty directory and final offset 3. -/
theorem directory_finalize_spec_witness :
    Directory.finalize ⟨[], none⟩ 3 =
      .ok ([] ++ (u32le CENTRAL_DIRECTORY_END_SIGNATURE ++ u16le 0 ++
        u16le 0 ++ u16le 0 ++ u16le 0 ++ u32le 0 ++ u32le 3 ++
        u16le 0)) := by
  have h := ((directory_finalize_spec [] none 3 [] rfl (by decide)
    (by decide)).1 (by decide)).1
  simpa using h

/-- C9: serializing a Directory whose offset was never set panics (given
that its entries serialize, which the source checks first), and this panic
is unreachable through finalize: finalize sets the offset before
serializing, so it never panics, for any directory and any offset. -/
theorem directory_offset_contract (es : List DirectoryEntry)
    (eb : List Nat) (heb : entriesBytes es = .ok eb) :
    Directory.to_bytes ⟨es, none⟩ = .panic ∧
    ∀ (dir : Directory) (off : Nat), Directory.finalize dir off ≠ .panic := by
  constructor
  · simp [Directory.to_bytes, heb]
  · intro dir off
    unfold Directory.finalize Directory.to_bytes
    cases hE : entriesBytes dir.entries with
    | error e => simp
    | ok eb2 =>
      simp only
      split
      · simp
      · cases hD : DirectoryEnd.add_to_bytes
          ⟨dir.entries.length % 65536, eb2.length % 4294967296, off⟩ <;> simp

/-- Witness for C9 at the empty directory. -/
theorem directory_offset_contract_witness :
    Directory.to_bytes ⟨[], none⟩ = .panic ∧
    Directory.finalize ⟨[], none⟩ 0 ≠ .panic :=
  ⟨(directory_offset_contract [] [] rfl).1,
   (directory_offset_contract [] [] rfl).2 ⟨[], none⟩ 0⟩

/-- C10: the end-record count fields are written as the number of entries
reduced modulo 65536 and the directory-size field as the entry-bytes
length reduced modulo 4294967296, by truncating casts; finalize succeeds
with the wrapped values for any number of entries and any directory byte
length, provided only that the entries serialize and the final offset fits
32 bits. -/
theorem directory_finalize_truncation (entries : List DirectoryEntry)
    (o : Option Nat) (off : Nat) (eb : List Nat)
    (heb : entriesBytes entries = .ok eb) (hoff : off ≤ 4294967295) :
    Directory.finalize ⟨entries, o⟩ off =
      .ok (eb ++ (u32le CENTRAL_DIRECTORY_END_SIGNATURE ++ u16le 0 ++
        u16le 0 ++ u16le (entries.length % 65536) ++
        u16le (entries.length % 65536) ++ u32le (eb.length % 4294967296) ++
        u32le off ++ u16le 0)) := by
  have hoff2 : ¬ off > U32_MAX := by simp [U32_MAX]; omega
  simp [Directory.finalize, Directory.to_bytes, heb, hoff2,
    DirectoryEnd.add_to_bytes]

/-- Witness for C10 at the empty directory and final offset 0. -/
theorem directory_finalize_truncation_witness :
    Directory.finalize ⟨[], none⟩ 0 =
      .ok ([] ++ (u32le CENTRAL_DIRECTORY_END_SIGNATURE ++ u16le 0 ++
        u16le 0 ++ u16le (0 % 65536) ++ u16le (0 % 65536) ++
        u32le (0 % 4294967296) ++ u32le 0 ++ u16le 0)) := by
  have h := directory_finalize_truncation [] none 0 [] rfl (by decide)
  simpa using h

/-- The reflected crc-32 (IEEE) polynomial used by crc32fast. -/
theorem sumLen_nil : sumLen [] = 0 := rfl

theorem sumLen_cons (c : List Nat) (cs : List (List Nat)) :
    sumLen (c :: cs) = c.length + sumLen cs := by
  simp [sumLen]

theorem sumLen_append (a b : List (List Nat)) :
    sumLen (a ++ b) = sumLen a + sumLen b := by
  simp [sumLen]

theorem readLoop_eq (rs : List (Except Error (List Nat))) (pos c : Nat) :
    readLoop rs pos c = (takeChunks rs,
      match readErr rs with
      | some e => .error e
      | none => .ok (pos + sumLen (takeChunks rs),
          crc32Update c (takeChunks rs).flatten)) := by
  induction rs generalizing pos c with
  | nil => simp [readLoop, takeChunks, readErr, sumLen, crc32Update]
  | cons hd tl ih =>
    cases hd with
    | error e => simp [readLoop, takeChunks, readErr]
    | ok chunk =>
      by_cases h0 : chunk.length = 0
      · simp [readLoop, takeChunks, readErr, h0, sumLen, crc32Update]
      · simp only [readLoop, takeChunks, readErr, h0, if_false, ih]
        cases hE : readErr tl with
        | some e => simp
        | none =>
          simp only [sumLen_cons, crc32Update, List.flatten_cons,
            List.foldl_append, Prod.mk.injEq, Except.ok.injEq, true_and]
          exact ⟨by omega, trivial⟩

theorem processFile_eq (f : InputFile) (pos : Nat) (dir : Directory) :
    processFile f pos dir = (fileChunks f, fileResult f pos dir) := by
  unfold processFile fileChunks fileResult
  cases hO : f.openResult with
  | error e => rfl
  | ok u =>
    cases hH : FileHeader.to_bytes ⟨f.name, f.modified⟩ with
    | error e => simp only [hH]
    | ok hb =>
      simp only [hH, readLoop_eq]
      cases hE : readErr f.reads with
      | some e => simp only [hE]
      | none =>
        simp only [hE]
        have hsz : ∀ s : Nat,
            pos + hb.length + s - (pos + hb.length) = s := fun s => by omega
        simp only [hsz]
        have hdesc : Descriptor.new (sumLen (takeChunks f.reads))
            (crc32Finalize (crc32Update CRC32_INIT
              (takeChunks f.reads).flatten)) = fileDesc f := rfl
        rw [hdesc]
        cases hD : Descriptor.to_bytes (fileDesc f) with
        | error e => simp only [hD]
        | ok db => simp only [hD]

theorem processFile_ok (f : InputFile) (pos : Nat) (dir : Directory)
    (cs : List (List Nat)) (p2 : Nat) (d2 : Directory)
    (h : processFile f pos dir = (cs, .ok (p2, d2))) :
    cs = fileChunks f ∧ p2 = pos + sumLen cs ∧
      d2 = dir.add_entry ⟨f.name, f.modified⟩ (fileDesc f) pos := by
  rw [processFile_eq] at h
  have h1 : fileChunks f = cs := congrArg Prod.fst h
  have h2 : fileResult f pos dir = Except.ok (p2, d2) := congrArg Prod.snd h
  subst h1
  unfold fileResult at h2
  unfold fileChunks
  cases hO : f.openResult with
  | error e =>
    simp only [hO] at h2
    exact Except.noConfusion h2
  | ok u =>
    simp only [hO] at h2 ⊢
    cases hH : FileHeader.to_bytes ⟨f.name, f.modified⟩ with
    | error e =>
      simp only [hH] at h2
      exact Except.noConfusion h2
    | ok hb =>
      simp only [hH] at h2 ⊢
      cases hE : readErr f.reads with
      | some e =>
        simp only [hE] at h2
        exact Except.noConfusion h2
      | none =>
        simp only [hE] at h2 ⊢
        cases hD : Descriptor.to_bytes (fileDesc f) with
        | error e =>
          simp only [hD] at h2
          exact Except.noConfusion h2
        | ok db =>
          simp only [hD] at h2 ⊢
          simp only [Except.ok.injEq, Prod.mk.injEq] at h2
          obtain ⟨hp, hd⟩ := h2
          refine ⟨by simp, ?_, hd.symm⟩
          rw [← hp, sumLen_cons, sumLen_append, sumLen_cons, sumLen_nil]
          omega

theorem processFiles_append (l1 l2 : List InputFile) (pos : Nat)
    (dir : Directory) :
    processFiles (l1 ++ l2) pos dir =
      match processFiles l1 pos dir with
      | (cs, .error e) => (cs, .error e)
      | (cs, .ok (p, d)) =>
        (cs ++ (processFiles l2 p d).1, (processFiles l2 p d).2) := by
  induction l1 generalizing pos dir with
  | nil =>
    simp only [List.nil_append, processFiles]
  | cons f fs ih =>
    simp only [List.cons_append, processFiles]
    cases hf : processFile f pos dir with
    | mk cs r =>
      cases r with
      | error e => simp
      | ok pd =>
        obtain ⟨p, d⟩ := pd
        simp only [List.append_eq, ih]
        cases hr : processFiles fs p d with
        | mk cs2 r2 =>
          cases r2 with
          | error e => simp
          | ok pd2 =>
            obtain ⟨p2, d2⟩ := pd2
            simp [List.append_assoc]

theorem finalize_ne_panic (dir : Directory) (off : Nat) :
    Directory.finalize dir off ≠ .panic := by
  unfold Directory.finalize Directory.to_bytes
  cases hE : entriesBytes dir.entries with
  | error e => simp
  | ok eb2 =>
    simp only
    split
    · simp
    · cases hD : DirectoryEnd.add_to_bytes
        ⟨dir.entries.length % 65536, eb2.length % 4294967296, off⟩ <;> simp

theorem takeChunks_map_ok (rs : List (List Nat)) (hne : ∀ c ∈ rs, c ≠ []) :
    takeChunks (rs.map Except.ok) = rs := by
  induction rs with
  | nil => rfl
  | cons c cs ih =>
    have hc : c ≠ [] := hne c (by simp)
    have hlen : ¬ c.length = 0 := by simpa [List.length_eq_zero] using hc
    simp only [List.map_cons, takeChunks, hlen, if_false]
    rw [ih (fun x hx => hne x (by simp [hx]))]

theorem readErr_map_ok (rs : List (List Nat)) (hne : ∀ c ∈ rs, c ≠ []) :
    readErr (rs.map Except.ok) = none := by
  induction rs with
  | nil => rfl
  | cons c cs ih =>
    have hc : c ≠ [] := hne c (by simp)
    have hlen : ¬ c.length = 0 := by simpa [List.length_eq_zero] using hc
    simp only [List.map_cons, readErr, hlen, if_false]
    exact ih (fun x hx => hne x (by simp [hx]))

/-- C1: for a file whose reads succeed and are the non-empty chunks rs in
read order, main_loop emits exactly the header, then rs unchanged, then
the descriptor; the descriptor it builds has size sumLen rs, which is both
the total byte length of the content chunks and the cursor after the last
content chunk minus the cursor at content start (the source computes it as
that difference), and crc the crc-32 of the concatenation of the chunks.
The cursor advances by the length of every chunk.  With rs empty, the
zero-length-file boundary, this gives a header, zero content chunks, and a
descriptor with size 0 and the crc-32 of the empty byte sequence. -/
theorem processFile_content_and_descriptor (f : InputFile) (pos : Nat)
    (dir : Directory) (rs : List (List Nat)) (hb : List Nat)
    (hopen : f.openResult = .ok ())
    (hreads : f.reads = rs.map Except.ok)
    (hne : ∀ c ∈ rs, c ≠ [])
    (hhb : FileHeader.to_bytes ⟨f.name, f.modified⟩ = .ok hb) :
    processFile f pos dir =
      match Descriptor.to_bytes ⟨sumLen rs, crc32 rs.flatten⟩ with
      | .error e => (hb :: rs, .error e)
      | .ok db =>
        (hb :: (rs ++ [db]),
          .ok (pos + hb.length + sumLen rs + db.length,
            dir.add_entry ⟨f.name, f.modified⟩
              ⟨sumLen rs, crc32 rs.flatten⟩ pos)) := by
  rw [processFile_eq]
  unfold fileChunks fileResult
  have htc : takeChunks f.reads = rs := by
    rw [hreads]
    exact takeChunks_map_ok rs hne
  have hre : readErr f.reads = none := by
    rw [hreads]
    exact readErr_map_ok rs hne
  have hfd : fileDesc f = ⟨sumLen rs, crc32 rs.flatten⟩ := by
    unfold fileDesc
    rw [htc]
  simp only [hopen, hhb, hre, htc, hfd]
  cases hD : Descriptor.to_bytes (⟨sumLen rs, crc32 rs.flatten⟩ : Descriptor) with
  | error e => simp [hD]
  | ok db => simp [hD]

/-- Witness for C1 at a zero-length file named by the single byte 97:
one header chunk, zero content chunks, one descriptor chunk with size 0
and the crc-32 of the empty sequence, which is 0. -/
theorem processFile_content_and_descriptor_witness :
    processFile ⟨.ok (), [97], ⟨0, .ok 33⟩, []⟩ 0 ⟨[], none⟩ =
      ([u32le LOCAL_FILE_HEADER_SIGNATURE ++ u16le MIN_VERSION ++
          u16le FLAGS ++ u16le COMPRESS_STORE ++ u16le 0 ++ u16le 33 ++
          u32le 0 ++ u32le 0 ++ u32le 0 ++ u16le 1 ++ u16le 0 ++ [97],
        u32le DATA_DESCRIPTOR_SIGNATURE ++ u32le 0 ++ u32le 0 ++ u32le 0],
       .ok (47, Directory.add_entry ⟨[], none⟩ ⟨[97], ⟨0, .ok 33⟩⟩
         ⟨0, 0⟩ 0)) := by
  have h := processFile_content_and_descriptor
    ⟨.ok (), [97], ⟨0, .ok 33⟩, []⟩ 0 ⟨[], none⟩ []
    (u32le LOCAL_FILE_HEADER_SIGNATURE ++ u16le MIN_VERSION ++
      u16le FLAGS ++ u16le COMPRESS_STORE ++ u16le 0 ++ u16le 33 ++
      u32le 0 ++ u32le 0 ++ u32le 0 ++ u16le 1 ++ u16le 0 ++ [97])
    rfl rfl (by simp) rfl
  exact h.trans (by rfl)

/-- C2: on a successful run over any file list, the final cursor equals
the base cursor plus the total byte length of every chunk emitted, the
emitted chunks are the per-file chunk groups in order, and the offset
recorded in the directory entry appended for the i-th file equals the base
cursor plus the byte length of all chunks emitted before that file, which
is exactly where that file's local header starts in the emitted stream. -/
theorem cursor_and_entry_offsets (files : List InputFile) (pos : Nat)
    (dir : Directory) (cs : List (List Nat)) (p2 : Nat) (d2 : Directory)
    (h : processFiles files pos dir = (cs, .ok (p2, d2))) :
    p2 = pos + sumLen cs ∧
    cs = (files.map fileChunks).flatten ∧
    ∃ newEntries : List DirectoryEntry,
      d2.entries = dir.entries ++ newEntries ∧
      newEntries.length = files.length ∧
      ∀ i e, newEntries[i]? = some e →
        e.offset = pos + sumLen (((files.take i).map fileChunks).flatten) := by
  induction files generalizing pos dir cs p2 d2 with
  | nil =>
    simp only [processFiles, Prod.mk.injEq, Except.ok.injEq] at h
    obtain ⟨hcs, hp, hd⟩ := h
    subst hp
    subst hd
    refine ⟨by simp [← hcs, sumLen_nil], by simp [← hcs], [], by simp, by simp, ?_⟩
    intro i e hi
    simp at hi
  | cons f fs ih =>
    simp only [processFiles] at h
    cases hf : processFile f pos dir with
    | mk cs1 r1 =>
      rw [hf] at h
      cases r1 with
      | error e =>
        simp only [Prod.mk.injEq] at h
        exact Except.noConfusion h.2
      | ok pd1 =>
        obtain ⟨p1, d1⟩ := pd1
        have h2 : (cs1 ++ (processFiles fs p1 d1).1,
            (processFiles fs p1 d1).2) = (cs, Except.ok (p2, d2)) := h
        cases hr : processFiles fs p1 d1 with
        | mk cs2 r2 =>
          rw [hr] at h2
          simp only [Prod.mk.injEq] at h2
          obtain ⟨hcs, hr2⟩ := h2
          subst hr2
          obtain ⟨hcs1, hp1, hd1⟩ := processFile_ok f pos dir cs1 p1 d1 hf
          subst hcs1
          subst hp1
          subst hd1
          obtain ⟨ihp, ihcs, nes, ihent, ihlen, ihoff⟩ :=
            ih _ _ _ _ _ hr
          refine ⟨?_, ?_, ⟨⟨f.name, f.modified⟩, fileDesc f, pos⟩ :: nes,
            ?_, ?_, ?_⟩
          · rw [← hcs, sumLen_append]
            omega
          · rw [← hcs, ihcs]
            simp
          · rw [ihent]
            simp [Directory.add_entry]
          · simp [ihlen]
          · intro i e hi
            cases i with
            | zero =>
              simp only [List.getElem?_cons_zero, Option.some.injEq] at hi
              subst hi
              simp [sumLen_nil]
            | succ j =>
              simp only [List.getElem?_cons_succ] at hi
              have hoffj := ihoff j e hi
              simp only [List.take_succ_cons, List.map_cons,
                List.flatten_cons, sumLen_append]
              omega

/-- Witness for C2 at a single zero-length file named by the byte 98 and
base cursor 0: the final cursor is 47, the bytes of the header and the
descriptor, and the one appended entry records offset 0. -/
theorem cursor_and_entry_offsets_witness :
    (47 : Nat) = 0 + sumLen
      [u32le LOCAL_FILE_HEADER_SIGNATURE ++ u16le MIN_VERSION ++
        u16le FLAGS ++ u16le COMPRESS_STORE ++ u16le 2 ++ u16le 34 ++
        u32le 0 ++ u32le 0 ++ u32le 0 ++ u16le 1 ++ u16le 0 ++ [98],
       u32le DATA_DESCRIPTOR_SIGNATURE ++ u32le 0 ++ u32le 0 ++ u32le 0] ∧
    [u32le LOCAL_FILE_HEADER_SIGNATURE ++ u16le MIN_VERSION ++
      u16le FLAGS ++ u16le COMPRESS_STORE ++ u16le 2 ++ u16le 34 ++
      u32le 0 ++ u32le 0 ++ u32le 0 ++ u16le 1 ++ u16le 0 ++ [98],
     u32le DATA_DESCRIPTOR_SIGNATURE ++ u32le 0 ++ u32le 0 ++ u32le 0] =
      (([⟨.ok (), [98], ⟨2, .ok 34⟩, []⟩] :
        List InputFile).map fileChunks).flatten ∧
    ∃ newEntries : List DirectoryEntry,
      (⟨[⟨⟨[98], ⟨2, .ok 34⟩⟩, ⟨0, 0⟩, 0⟩], none⟩ : Directory).entries =
        (⟨[], none⟩ : Directory).entries ++ newEntries ∧
      newEntries.length = ([⟨.ok (), [98], ⟨2, .ok 34⟩, []⟩] :
        List InputFile).length ∧
      ∀ i e, newEntries[i]? = some e →
        e.offset = 0 + sumLen (((([⟨.ok (), [98], ⟨2, .ok 34⟩, []⟩] :
          List InputFile).take i).map fileChunks).flatten) :=
  cursor_and_entry_offsets [⟨.ok (), [98], ⟨2, .ok 34⟩, []⟩] 0 ⟨[], none⟩
    [u32le LOCAL_FILE_HEADER_SIGNATURE ++ u16le MIN_VERSION ++
      u16le FLAGS ++ u16le COMPRESS_STORE ++ u16le 2 ++ u16le 34 ++
      u32le 0 ++ u32le 0 ++ u32le 0 ++ u16le 1 ++ u16le 0 ++ [98],
     u32le DATA_DESCRIPTOR_SIGNATURE ++ u32le 0 ++ u32le 0 ++ u32le 0]
    47 ⟨[⟨⟨[98], ⟨2, .ok 34⟩⟩, ⟨0, 0⟩, 0⟩], none⟩ rfl

/-- C7: when an openable input file with a convertible date has a name of
encoded byte length above 65535, the run aborts with the name-too-long
error before any chunk of that file is emitted: whatever files follow, the
output stream holds exactly the chunks of the preceding files and then the
failure, with no header or content bytes of the offending file. -/
theorem name_too_long_aborts (files1 files2 : List InputFile)
    (f : InputFile) (cs1 : List (List Nat)) (p1 : Nat) (d1 : Directory)
    (d : Nat)
    (h1 : processFiles files1 0 Directory.new = (cs1, .ok (p1, d1)))
    (hopen : f.openResult = .ok ())
    (hd : f.modified.dos_datepart = .ok d)
    (hname : f.name.length > 65535) :
    zipped_stream (files1 ++ f :: files2) =
      cs1.map StreamItem.chunk ++ [StreamItem.failure .FileNameTooBig] := by
  have hH : FileHeader.to_bytes ⟨f.name, f.modified⟩ =
      .error .FileNameTooBig := by
    have hgt : (⟨f.name, f.modified⟩ : FileHeader).file_name.length >
        U16_MAX := by
      simpa [U16_MAX] using hname
    simp [FileHeader.to_bytes, hd, hgt]
  have hpf : processFile f p1 d1 = ([], .error .FileNameTooBig) := by
    rw [processFile_eq]
    unfold fileChunks fileResult
    simp only [hopen, hH]
  have hall : processFiles (files1 ++ f :: files2) 0 Directory.new =
      (cs1, .error .FileNameTooBig) := by
    rw [processFiles_append, h1]
    simp only [processFiles, hpf]
    simp
  unfold zipped_stream main_loop
  rw [hall]

/-- Witness for C7: one file whose name is 65536 bytes long aborts the
run with the name-too-long failure as the only stream item. -/
theorem name_too_long_aborts_witness :
    zipped_stream [⟨.ok (), List.replicate 65536 0, ⟨0, .ok 0⟩, []⟩] =
      [StreamItem.failure .FileNameTooBig] := by
  have h := name_too_long_aborts [] []
    ⟨.ok (), List.replicate 65536 0, ⟨0, .ok 0⟩, []⟩ [] 0 Directory.new 0
    rfl rfl rfl (by rw [List.length_replicate]; omega)
  simpa only [List.nil_append, List.map_nil] using h

/-- C8: for every input list the output stream is either a sequence of
chunk items followed by exactly one terminal failure item, or, on success,
a pure sequence of chunk items whose last chunk is the finalized directory
serialization emitted after the per-file chunks; there is never an item
after a failure and never a failure item on success. -/
theorem stream_error_terminal (files : List InputFile) :
    (∃ (cs : List (List Nat)) (e : Error), zipped_stream files =
      cs.map StreamItem.chunk ++ [StreamItem.failure e]) ∨
    (∃ (cs : List (List Nat)) (p : Nat) (d : Directory) (db : List Nat),
      processFiles files 0 Directory.new = (cs, .ok (p, d)) ∧
      Directory.finalize d p = .ok db ∧
      zipped_stream files = (cs ++ [db]).map StreamItem.chunk) := by
  cases hP : processFiles files 0 Directory.new with
  | mk cs r =>
    cases r with
    | error e =>
      left
      have hm : main_loop files = (cs, .err e) := by
        unfold main_loop
        rw [hP]
      exact ⟨cs, e, by simp [zipped_stream, hm]⟩
    | ok pd =>
      obtain ⟨p, d⟩ := pd
      cases hF : Directory.finalize d p with
      | ok db =>
        right
        have hm : main_loop files = (cs ++ [db], .ok ()) := by
          unfold main_loop
          rw [hP]
          simp [hF]
        exact ⟨cs, p, d, db, rfl, hF, by simp [zipped_stream, hm]⟩
      | err e =>
        left
        have hm : main_loop files = (cs, .err e) := by
          unfold main_loop
          rw [hP]
          simp [hF]
        exact ⟨cs, e, by simp [zipped_stream, hm]⟩
      | panic => exact absurd hF (finalize_ne_panic d p)

end AsyncZip
